import Mathlib

/-!
Shallow embedding of the AAT vs ECF cross-validation pipeline
(src/modules/cross_validation.py and
src/modules/historical_validation_comments.py, with the standalone
src/Cross-validation.py where it differs).

Modelling conventions:
* a pandas / openpyxl numeric cell is an Option Rat: some q for a number,
  none for an empty cell / NaN;
* pandas element-wise arithmetic propagates NaN (none), pandas sum and
  cumsum skip NaN; both are modelled explicitly;
* Python string truthiness (if deal_name:) on an Option String cell is
  false exactly for none and some "";
* a directory listing (os.listdir) is an Option (List String): none when
  the listing itself raises, some fs for the list of filenames.
-/

namespace CrossVal

/-- Threshold constant from config.py: SIGNIFICANT_MV_THRESHOLD = 25_000_000. -/
def SIGNIFICANT_MV_THRESHOLD : ℚ := 25000000

/-- Threshold constant from config.py: IRR_DIFF_THRESHOLD = 0.05. -/
def IRR_DIFF_THRESHOLD : ℚ := 5 / 100

/-- Threshold constant from config.py: DURATION_DIFF_THRESHOLD = 0.5. -/
def DURATION_DIFF_THRESHOLD : ℚ := 1 / 2

/-- Pandas element-wise subtraction of two cells: NaN (none) propagates. -/
def cellSub (x y : Option ℚ) : Option ℚ :=
  match x, y with
  | some a, some b => some (a - b)
  | _, _ => none

/-- The 'AAT&ECF IRR Diffs' column inserted by process_data
(src/modules/cross_validation.py lines 133-140): the value is
df[irr_col] - df[aat_irr_col], that is the external column '{date} IRR'
minus the internal column '{date} AAT IRR'.  The standalone script
src/Cross-validation.py lines 127-134 computes the same expression. -/
def aat_ecf_irr_diffs (ecfIrr aatIrr : Option ℚ) : Option ℚ :=
  cellSub ecfIrr aatIrr

/-- The 'Duration Diffs' column inserted by process_data (lines 142-147):
'Duration DCF Base' minus 'Duration AAT Base'. -/
def duration_diffs (ecfDur aatDur : Option ℚ) : Option ℚ :=
  cellSub ecfDur aatDur

/-- Test irr_diff is not None and abs(irr_diff) > IRR_DIFF_THRESHOLD
(add_category_column, src/modules/cross_validation.py line 457). -/
def has_irr_discrepancy (irr : Option ℚ) : Bool :=
  match irr with
  | some d => decide (|d| > IRR_DIFF_THRESHOLD)
  | none => false

/-- Test duration_diff is not None and abs(duration_diff) >
DURATION_DIFF_THRESHOLD (line 458). -/
def has_duration_discrepancy (dur : Option ℚ) : Bool :=
  match dur with
  | some d => decide (|d| > DURATION_DIFF_THRESHOLD)
  | none => false

/-- Test mv_value is not None and mv_value > SIGNIFICANT_MV_THRESHOLD
(line 461); this is the materiality boolean of the classifier. -/
def mv_is_significant (mv : Option ℚ) : Bool :=
  match mv with
  | some v => decide (v > SIGNIFICANT_MV_THRESHOLD)
  | none => false

/-- Category cell written by add_category_column
(src/modules/cross_validation.py lines 450-467) for one row, given the
'AAT&ECF IRR Diffs', 'Duration Diffs' and '{date} MV' cells; none means
the loop writes no category cell for the row. -/
def add_category (irr dur mv : Option ℚ) : Option String :=
  if irr.isSome || dur.isSome then
    if mv_is_significant mv then
      some (if has_irr_discrepancy irr || has_duration_discrepancy dur then
              "Significant Discrepancy"
            else "Alignment")
    else
      some (if has_irr_discrepancy irr || has_duration_discrepancy dur then
              "Significant discrepancy but ignore"
            else "Alignment")
  else none

/-- A worksheet row as seen by highlight_and_collect: the checked diff cell
and the market value cell. -/
structure HRow where
  diff : Option ℚ
  mv : Option ℚ
deriving DecidableEq

/-- Row-selection predicate of highlight_and_collect
(src/modules/cross_validation.py lines 283-292): the cell holds a number,
abs(cell.value) > threshold, and the market value cell holds a number with
market_value >= mv_threshold (note the non-strict comparison on line 289). -/
def highlight_collect_pred (threshold mv_threshold : ℚ) (r : HRow) : Bool :=
  match r.diff with
  | some d =>
    decide (|d| > threshold) &&
      (match r.mv with
       | some v => decide (v ≥ mv_threshold)
       | none => false)
  | none => false

/-- The significant_rows list collected by highlight_and_collect: the rows
of the sheet passing highlight_collect_pred, in sheet order (the cell
highlighting side effect carries no extra information and is dropped). -/
def highlight_and_collect (rows : List HRow) (threshold mv_threshold : ℚ) :
    List HRow :=
  rows.filter (highlight_collect_pred threshold mv_threshold)

/-- Row-highlight condition of highlight_and_group_summary
(src/modules/cross_validation.py lines 599-607): mv_value is not None and
mv_value > SIGNIFICANT_MV_THRESHOLD (strict); other rows are grouped and
hidden. -/
def highlight_and_group_material (mv : Option ℚ) : Bool :=
  match mv with
  | some v => decide (v > SIGNIFICANT_MV_THRESHOLD)
  | none => false

end CrossVal

namespace CrossVal

/-- C1 counterexample: a merged row with '{date} IRR' (ECF) = 0.02 and
'{date} AAT IRR' = 0.10.  The claim states the stored diff equals
AAT IRR minus ECF IRR = 0.08; the code stores 0.02 - 0.10 = -0.08. -/
theorem c1_counterexample :
    ¬ (aat_ecf_irr_diffs (some (2 / 100)) (some (10 / 100)) =
        some ((10 / 100 : ℚ) - 2 / 100)) := by
  simp only [aat_ecf_irr_diffs, cellSub, Option.some.injEq]
  norm_num

/-- C1 (amended): for every merged row the 'AAT&ECF IRR Diffs' column equals
the external ECF IRR ('{date} IRR') minus the internal AAT IRR
('{date} AAT IRR'), i.e. the negation of the value the claim states, and the
diff is null whenever either input IRR is null. -/
theorem c1_irr_diff_direction (e a : ℚ) :
    aat_ecf_irr_diffs (some e) (some a) = some (e - a)
      ∧ aat_ecf_irr_diffs (some e) (some a) = some (-(a - e))
      ∧ (∀ x : Option ℚ, aat_ecf_irr_diffs none x = none)
      ∧ (∀ x : Option ℚ, aat_ecf_irr_diffs x none = none) := by
  refine ⟨rfl, by simp [aat_ecf_irr_diffs, cellSub], fun x => rfl, fun x => ?_⟩
  cases x <;> rfl

set_option maxHeartbeats 2000000 in
/-- C2: add_category assigns no category exactly when both diffs are null;
otherwise exactly one of the three categories, with 'Significant
Discrepancy' iff some diff strictly exceeds its threshold (0.05 resp. 0.5)
and the market value is non-null and strictly above 25,000,000,
'Significant discrepancy but ignore' iff such a discrepancy exists but the
row is not material, and 'Alignment' iff no discrepancy exists, regardless
of materiality; in particular an IRR diff of exactly 0.05 never triggers a
discrepancy. -/
theorem c2_classifier (irr dur mv : Option ℚ) :
    (add_category irr dur mv = none ↔ irr = none ∧ dur = none)
    ∧ (add_category irr dur mv = some "Significant Discrepancy" ↔
        ((∃ d, irr = some d ∧ (5 / 100 : ℚ) < |d|)
            ∨ (∃ d, dur = some d ∧ (1 / 2 : ℚ) < |d|))
          ∧ (∃ v, mv = some v ∧ (25000000 : ℚ) < v))
    ∧ (add_category irr dur mv = some "Significant discrepancy but ignore" ↔
        ((∃ d, irr = some d ∧ (5 / 100 : ℚ) < |d|)
            ∨ (∃ d, dur = some d ∧ (1 / 2 : ℚ) < |d|))
          ∧ ¬ (∃ v, mv = some v ∧ (25000000 : ℚ) < v))
    ∧ (add_category irr dur mv = some "Alignment" ↔
        (irr.isSome ∨ dur.isSome)
          ∧ ¬ ((∃ d, irr = some d ∧ (5 / 100 : ℚ) < |d|)
            ∨ (∃ d, dur = some d ∧ (1 / 2 : ℚ) < |d|)))
    ∧ add_category (some (5 / 100)) none (some 30000000) = some "Alignment" := by
  have hb : add_category (some (5 / 100)) none (some 30000000) =
      some "Alignment" := by
    have h1 : ¬ ((5 / 100 : ℚ) < |(5 / 100 : ℚ)|) := by
      rw [abs_of_nonneg (by norm_num)]
      exact lt_irrefl _
    have h2 : (25000000 : ℚ) < 30000000 := by norm_num
    simp [add_category, has_irr_discrepancy, has_duration_discrepancy,
      mv_is_significant, IRR_DIFF_THRESHOLD, DURATION_DIFF_THRESHOLD,
      SIGNIFICANT_MV_THRESHOLD, h1, h2]
  refine ⟨?_, ?_, ?_, ?_, hb⟩ <;>
    rcases irr with _ | di <;> rcases dur with _ | dd <;>
      rcases mv with _ | v <;>
      simp only [add_category, has_irr_discrepancy, has_duration_discrepancy,
        mv_is_significant, IRR_DIFF_THRESHOLD, DURATION_DIFF_THRESHOLD,
        SIGNIFICANT_MV_THRESHOLD, Option.isSome_none, Option.isSome_some,
        Bool.false_or, Bool.or_false, Bool.or_true, Bool.true_or] <;>
      split_ifs <;>
      simp_all only [decide_eq_true_eq, Bool.or_eq_true, Bool.false_eq_true,
        Bool.true_eq_false, not_or, not_exists, not_and, not_false_iff,
        Option.some.injEq, reduceCtorEq, Option.isSome_none,
        Option.isSome_some, or_false, false_or, or_true, true_or,
        iff_true, iff_false, not_true, not_false_eq_true] <;>
      first
        | rfl
        | tauto
        | simp_all

/-- C5 counterexample: a row with diff 0.06 and market value exactly
25,000,000 is collected into the highlighted view (highlight_and_collect
compares market_value >= threshold), yet the classifier's materiality
boolean is false for it, so membership is not equivalent to
(diff over threshold and is_material). -/
theorem c5_counterexample :
    highlight_and_collect [⟨some (6 / 100), some 25000000⟩]
        IRR_DIFF_THRESHOLD SIGNIFICANT_MV_THRESHOLD =
      [⟨some (6 / 100), some 25000000⟩]
    ∧ mv_is_significant (some 25000000) = false := by
  have habs : |(6 / 100 : ℚ)| = 6 / 100 := abs_of_nonneg (by norm_num)
  have h1 : (5 / 100 : ℚ) < 6 / 100 := by norm_num
  constructor
  · simp [highlight_and_collect, highlight_collect_pred, IRR_DIFF_THRESHOLD,
      SIGNIFICANT_MV_THRESHOLD, habs, h1, List.filter]
  · simp [mv_is_significant, SIGNIFICANT_MV_THRESHOLD]

/-- C5 (amended): a row is collected into a significant view under diff
threshold th iff it is a sheet row whose diff cell is numeric with absolute
value strictly above th and whose market value cell is numeric and at least
(non-strictly) 25,000,000; the highlight/group presentation of the summary
sheet, by contrast, uses exactly the classifier's strict materiality
boolean, under which a market value of exactly 25,000,000 is not material. -/
theorem c5_materiality (rows : List HRow) (th : ℚ) (r : HRow) :
    (r ∈ highlight_and_collect rows th SIGNIFICANT_MV_THRESHOLD ↔
        r ∈ rows ∧ (∃ d, r.diff = some d ∧ th < |d|)
          ∧ (∃ v, r.mv = some v ∧ SIGNIFICANT_MV_THRESHOLD ≤ v))
      ∧ highlight_and_group_material r.mv = mv_is_significant r.mv
      ∧ mv_is_significant (some SIGNIFICANT_MV_THRESHOLD) = false := by
  refine ⟨?_, rfl, by simp [mv_is_significant]⟩
  rw [highlight_and_collect, List.mem_filter]
  rcases r with ⟨_ | d, _ | v⟩ <;>
    simp [highlight_collect_pred]

end CrossVal

namespace HistComments

/-- A row of a highlight sheet as read by the carry-forward module: the
'Deal Name' cell and the 'AAT Comments' cell (openpyxl cell values; none
is an empty cell). -/
structure CRow where
  dealName : Option String
  comment : Option String
deriving DecidableEq

/-- A highlight sheet: its data rows, in sheet order (row 2 onwards). -/
abbrev Sheet := List CRow

/-- Python str.strip(): remove leading and trailing whitespace. -/
def pyStrip (s : String) : String :=
  String.mk
    (((s.toList.dropWhile Char.isWhitespace).reverse.dropWhile
        Char.isWhitespace).reverse)

/-- Python dict assignment comments_map[key] = comment.  Only pointwise
lookup is ever performed on the map downstream, so the assignment is
modelled as erase-then-cons; List.lookup on the result agrees with the
Python dict lookup. -/
def dictInsert (m : List (String × String)) (k v : String) :
    List (String × String) :=
  (k, v) :: m.filter (fun p => !(p.1 == k))

/-- One row of the extraction loop of extract_comments_mapping
(src/modules/historical_validation_comments.py lines 204-212): the row
contributes iff both cells are truthy in the Python sense (non-null and
non-empty); the key is the stripped deal name, the value the raw comment. -/
def extractRowStep (m : List (String × String)) (r : CRow) :
    List (String × String) :=
  match r.dealName, r.comment with
  | some n, some c =>
    if n = "" then m else if c = "" then m else dictInsert m (pyStrip n) c
  | _, _ => m

/-- extract_comments_mapping (lines 159-224) over the previous snapshot's
sheets (TARGET_SHEETS), scanned in order into one shared dict. -/
def extract_comments_mapping (sheets : List Sheet) : List (String × String) :=
  sheets.foldl (fun m sh => sh.foldl extractRowStep m) []

/-- The update loop body of update_comments (lines 269-279) on one row: if
the deal-name cell is truthy and its stripped value is a key of the map,
the comment cell is overwritten with the mapped value; otherwise the row is
left untouched. -/
def updateRow (m : List (String × String)) (r : CRow) : CRow :=
  match r.dealName with
  | some n =>
    if n = "" then r
    else
      match List.lookup (pyStrip n) m with
      | some c => { r with comment := some c }
      | none => r
  | none => r

/-- update_comments (lines 227-292) over the current snapshot's sheets. -/
def update_comments (m : List (String × String)) (sheets : List Sheet) :
    List Sheet :=
  sheets.map (fun sh => sh.map (updateRow m))

/-- Lookup after a Python dict assignment: the new key maps to the new
value, every other key is unaffected. -/
theorem lookup_dictInsert (m : List (String × String)) (k v k' : String) :
    List.lookup k' (dictInsert m k v) =
      if k' = k then some v else List.lookup k' m := by
  by_cases h : k' = k
  · simp [dictInsert, List.lookup, h]
  · have hb : (k' == k) = false := by simpa using h
    simp only [dictInsert, List.lookup, hb, if_neg h]
    induction m with
    | nil => rfl
    | cons p t ih =>
      rcases p with ⟨p1, p2⟩
      by_cases hp : p1 = k
      · have hp1 : (p1 == k) = true := by simpa using hp
        have hk1 : (k' == p1) = false := by
          refine beq_eq_false_iff_ne.mpr ?_
          rw [hp]
          exact h
        simp only [List.filter_cons, hp1, Bool.not_true, Bool.false_eq_true,
          if_false, List.lookup, hk1]
        exact ih
      · have hp1 : (p1 == k) = false := by simpa using hp
        by_cases hk : k' = p1
        · have hk1 : (k' == p1) = true := by simpa using hk
          simp [List.filter_cons, hp1, List.lookup, hk1]
        · have hk1 : (k' == p1) = false := by simpa using hk
          simp only [List.filter_cons, hp1, Bool.not_false, if_true,
            List.lookup, hk1]
          exact ih

/-- Every value inserted by the extraction loop is a non-empty comment. -/
theorem extract_rows_no_empty (rows : Sheet) (m0 : List (String × String))
    (h0 : ∀ k, List.lookup k m0 ≠ some "") :
    ∀ k, List.lookup k (rows.foldl extractRowStep m0) ≠ some "" := by
  induction rows generalizing m0 with
  | nil => exact h0
  | cons r t ih =>
    refine ih _ ?_
    intro k
    rcases r with ⟨_ | n, _ | c⟩ <;> simp only [extractRowStep]
    · exact h0 k
    · exact h0 k
    · exact h0 k
    · by_cases hn : n = ""
      · simp only [if_pos hn]
        exact h0 k
      · by_cases hc : c = ""
        · simp only [if_neg hn, if_pos hc]
          exact h0 k
        · simp only [if_neg hn, if_neg hc, lookup_dictInsert]
          by_cases hk : k = pyStrip n
          · simp only [if_pos hk, ne_eq, Option.some.injEq]
            exact fun hcc => hc hcc
          · simp only [if_neg hk]
            exact h0 k

/-- Extraction over a list of sheets preserves the no-empty-value
invariant of the accumulated dict. -/
theorem extract_sheets_no_empty (sheets : List Sheet)
    (m0 : List (String × String)) (h0 : ∀ k, List.lookup k m0 ≠ some "") :
    ∀ k, List.lookup k
        (sheets.foldl (fun m sh => sh.foldl extractRowStep m) m0) ≠
      some "" := by
  induction sheets generalizing m0 with
  | nil => exact h0
  | cons sh t ih => exact fun k => ih _ (extract_rows_no_empty sh m0 h0) k

/-- C9: running the carry-forward twice against the same (previous,
current) pair — extracting the map from the previous snapshot's highlight
sheets and applying update_comments to the already-updated current sheets —
yields exactly the sheets of a single run. -/
theorem c9_carry_forward_idempotent (prev cur : List Sheet) :
    update_comments (extract_comments_mapping prev)
        (update_comments (extract_comments_mapping prev) cur) =
      update_comments (extract_comments_mapping prev) cur := by
  have hrow : ∀ (m : List (String × String)) (r : CRow),
      updateRow m (updateRow m r) = updateRow m r := by
    intro m r
    rcases r with ⟨dn, c⟩
    rcases dn with _ | n
    · rfl
    · by_cases hn : n = ""
      · simp [updateRow, hn]
      · cases hc : List.lookup (pyStrip n) m with
        | none => simp [updateRow, hn, hc]
        | some c0 => simp [updateRow, hn, hc]
  simp [update_comments, List.map_map, Function.comp_def, hrow]

/-- C4 counterexample: the previous snapshot has a row with deal name " "
(whitespace, hence truthy) and comment "new", so the extracted map has the
stripped key "".  A current row with deal name "" has stripped deal name ""
— a key of the map — yet update_comments leaves its comment "old"
unchanged, because the Python truthiness test (if deal_name:) skips the
empty string.  The claim's 'exactly when the stripped deal name is a key'
therefore fails at this input. -/
theorem c4_counterexample :
    List.lookup (pyStrip "")
        (extract_comments_mapping [[⟨some " ", some "new"⟩]]) = some "new"
    ∧ update_comments
          (extract_comments_mapping [[⟨some " ", some "new"⟩]])
          [[⟨some "", some "old"⟩]] =
        [[⟨some "", some "old"⟩]] := by
  constructor <;> rfl

/-- C4 (amended): the extracted map never carries a null or empty comment,
and update_comments preserves every deal-name cell and rewrites a row's
comment to the mapped value exactly when the deal name is non-null,
non-empty, and its stripped form is a key of the map, leaving every other
row's comment unchanged — in particular a current comment survives whenever
the previous snapshot offers no (or only an empty) comment for it. -/
theorem c4_carry_forward (prev cur : List Sheet) :
    (∀ k, List.lookup k (extract_comments_mapping prev) ≠ some "")
    ∧ List.Forall₂ (List.Forall₂ (fun r r' : CRow =>
        r'.dealName = r.dealName ∧
        r'.comment =
          (match r.dealName with
           | some n =>
             if n = "" then r.comment
             else
               (match List.lookup (pyStrip n)
                   (extract_comments_mapping prev) with
                | some c => some c
                | none => r.comment)
           | none => r.comment)))
        cur (update_comments (extract_comments_mapping prev) cur) := by
  constructor
  · intro k
    rw [extract_comments_mapping]
    exact extract_sheets_no_empty prev [] (by simp) k
  · rw [update_comments, List.forall₂_map_right_iff, List.forall₂_same]
    intro sh _
    rw [List.forall₂_map_right_iff, List.forall₂_same]
    intro r _
    rcases r with ⟨_ | n, c⟩
    · exact ⟨rfl, rfl⟩
    · by_cases hn : n = ""
      · simp [updateRow, hn]
      · cases hc : List.lookup (pyStrip n) (extract_comments_mapping prev) with
        | none => simp [updateRow, hn, hc]
        | some c0 => simp [updateRow, hn, hc]

end HistComments

namespace Merger

/-- A row of Table A (the AAT data): its 'Deal Name' key and its remaining
fields, abstracted. -/
structure RowA (α : Type) where
  name : String
  fields : α
deriving DecidableEq

/-- A row of Table B (the status data): its 'Deal Name' key, its
'Instrument' cell (none is the aggregate, deal-level row) and its remaining
fields, abstracted. -/
structure RowB (β : Type) where
  name : String
  instrument : Option String
  fields : β
deriving DecidableEq

/-- A row of the merged table: the key, the A-side fields, and the B-side
fields (none when the left join found no match in filtered Table B). -/
structure MergedRow (α β : Type) where
  name : String
  aFields : α
  bFields : Option β
deriving DecidableEq

/-- The rows contributed to the left merge by one Table A row: one merged
row per matching filtered-B row, in B order, or a single row with null
B-side fields when there is no match. -/
def merge_one (bf : List (RowB β)) (a : RowA α) : List (MergedRow α β) :=
  match bf.filter (fun b => b.name == a.name) with
  | [] => [⟨a.name, a.fields, none⟩]
  | ms => ms.map (fun b => ⟨a.name, a.fields, some b.fields⟩)

/-- load_data (src/modules/cross_validation.py lines 98-112): filter Table
B to rows whose 'Instrument' cell is null, then left-merge Table A with the
filtered Table B on 'Deal Name' (pd.merge how='left' keeps A order and
pairs each A row with all key matches in B order). -/
def load_data (A : List (RowA α)) (B : List (RowB β)) :
    List (MergedRow α β) :=
  A.flatMap (merge_one (B.filter (fun b => b.instrument.isNone)))

/-- df.drop_duplicates(subset='Deal Name', keep='first') (line 131): a row
survives iff its name has not occurred on an earlier row. -/
def drop_duplicates_first (seen : List String) :
    List (MergedRow α β) → List (MergedRow α β)
  | [] => []
  | r :: rs =>
    if r.name ∈ seen then drop_duplicates_first seen rs
    else r :: drop_duplicates_first (r.name :: seen) rs

/-- Every row contributed by a Table A row carries that row's name. -/
theorem merge_one_name (bf : List (RowB β)) (a : RowA α) :
    ∀ r ∈ merge_one bf a, r.name = a.name := by
  intro r hr
  rw [merge_one] at hr
  rcases h : bf.filter (fun b => b.name == a.name) with _ | ⟨b, bs⟩ <;>
    rw [h] at hr
  · simp only [List.mem_singleton] at hr
    rw [hr]
  · rcases List.mem_map.mp hr with ⟨b', _, hb'⟩
    rw [← hb']

/-- Every Table A row contributes at least one merged row. -/
theorem merge_one_ne_nil (bf : List (RowB β)) (a : RowA α) :
    merge_one bf a ≠ [] := by
  rw [merge_one]
  rcases h : bf.filter (fun b => b.name == a.name) with _ | ⟨b, bs⟩ <;>
    simp [h]

/-- A merged row with non-null B-side fields only arises when the A row's
name occurs in the filtered Table B. -/
theorem merge_one_bfields (bf : List (RowB β)) (a : RowA α) :
    ∀ r ∈ merge_one bf a, r.bFields ≠ none →
      a.name ∈ bf.map RowB.name := by
  intro r hr hb
  rw [merge_one] at hr
  rcases h : bf.filter (fun b => b.name == a.name) with _ | ⟨b, bs⟩ <;>
    rw [h] at hr
  · simp only [List.mem_singleton] at hr
    rw [hr] at hb
    exact absurd rfl hb
  · have hbmem : b ∈ bf.filter (fun b => b.name == a.name) := by
      rw [h]
      exact List.mem_cons_self b bs
    rcases List.mem_filter.mp hbmem with ⟨hbf, hname⟩
    rw [List.mem_map]
    exact ⟨b, hbf, beq_iff_eq.mp hname⟩

/-- The names occurring in the merged table are exactly the names of Table
A. -/
theorem load_data_names (A : List (RowA α)) (B : List (RowB β))
    (n : String) :
    n ∈ (load_data A B).map MergedRow.name ↔ n ∈ A.map RowA.name := by
  induction A with
  | nil => simp [load_data]
  | cons a t ih =>
    rw [load_data, List.flatMap_cons, List.map_append, List.mem_append]
    rw [load_data] at ih
    rw [ih]
    simp only [List.map_cons, List.mem_cons]
    constructor
    · rintro (hl | hr)
      · rcases List.mem_map.mp hl with ⟨r, hrm, hrn⟩
        exact Or.inl (hrn ▸ (merge_one_name _ a r hrm).symm ▸ rfl)
      · exact Or.inr hr
    · rintro (hl | hr)
      · rcases List.exists_mem_of_ne_nil _ (merge_one_ne_nil
          (B.filter (fun b => b.instrument.isNone)) a) with ⟨r, hrm⟩
        refine Or.inl (List.mem_map.mpr ⟨r, hrm, ?_⟩)
        rw [merge_one_name _ a r hrm, hl]
      · exact Or.inr hr

/-- Counting rows of a given name after first-wins deduplication: zero when
the name was already seen, else one exactly when the name occurs at all. -/
theorem drop_duplicates_countP (l : List (MergedRow α β)) :
    ∀ (seen : List String) (n : String),
      (drop_duplicates_first seen l).countP (fun r => r.name == n) =
        if n ∈ seen then 0
        else if n ∈ l.map MergedRow.name then 1 else 0 := by
  induction l with
  | nil =>
    intro seen n
    simp [drop_duplicates_first]
  | cons r rs ih =>
    intro seen n
    rw [drop_duplicates_first]
    by_cases hs : r.name ∈ seen
    · rw [if_pos hs, ih seen n]
      by_cases hn : n ∈ seen
      · simp [hn]
      · have hne : ¬ n = r.name := fun h => hn (h ▸ hs)
        simp [hn, hne]
    · rw [if_neg hs, List.countP_cons, ih (r.name :: seen) n]
      by_cases hrn : n = r.name
      · subst hrn
        simp [List.mem_cons, hs]
      · have hbn : (r.name == n) = false :=
          beq_eq_false_iff_ne.mpr fun h => hrn h.symm
        simp [List.mem_cons, hrn, hbn]

/-- First-wins deduplication only keeps rows of the original list. -/
theorem drop_duplicates_subset (l : List (MergedRow α β)) :
    ∀ (seen : List String), ∀ r ∈ drop_duplicates_first seen l, r ∈ l := by
  induction l with
  | nil =>
    intro seen r hr
    exact absurd hr (by simp [drop_duplicates_first])
  | cons x rs ih =>
    intro seen r hr
    rw [drop_duplicates_first] at hr
    by_cases hs : x.name ∈ seen
    · rw [if_pos hs] at hr
      exact List.mem_cons_of_mem x (ih seen r hr)
    · rw [if_neg hs] at hr
      rcases List.mem_cons.mp hr with h | h
      · exact h ▸ List.mem_cons_self x rs
      · exact List.mem_cons_of_mem x (ih _ r h)

/-- C7: for every deal name occurring in Table A, the merged-and-
deduplicated table contains exactly one row with that name, and that row's
B-side fields are null whenever the name is absent from the filtered Table
B. -/
theorem c7_join_completeness (A : List (RowA α)) (B : List (RowB β))
    (n : String) (hn : n ∈ A.map RowA.name) :
    ((drop_duplicates_first [] (load_data A B)).countP
        (fun r => r.name == n) = 1)
    ∧ (n ∉ (B.filter (fun b => b.instrument.isNone)).map RowB.name →
        ∀ r ∈ drop_duplicates_first [] (load_data A B),
          r.name = n → r.bFields = none) := by
  constructor
  · rw [drop_duplicates_countP (load_data A B) [] n]
    rw [if_neg (List.not_mem_nil n)]
    rw [if_pos ((load_data_names A B n).mpr hn)]
  · intro hnb r hr hrn
    have hrl : r ∈ load_data A B :=
      drop_duplicates_subset (load_data A B) [] r hr
    rw [load_data] at hrl
    rcases List.mem_flatMap.mp hrl with ⟨a, haA, hra⟩
    by_cases hb : r.bFields = none
    · exact hb
    · exfalso
      have := merge_one_bfields _ a r hra hb
      rw [← merge_one_name _ a r hra, hrn] at this
      exact hnb this

/-- C7 witness: a one-row Table A named "X" against an empty Table B. -/
theorem c7_join_completeness_witness :
    ("X" ∈ ([(⟨"X", 0⟩ : RowA ℕ)]).map RowA.name)
    ∧ (((drop_duplicates_first []
          (load_data [(⟨"X", 0⟩ : RowA ℕ)] ([] : List (RowB ℕ)))).countP
            (fun r => r.name == "X") = 1)
        ∧ ("X" ∉ (([] : List (RowB ℕ)).filter
              (fun b => b.instrument.isNone)).map RowB.name →
            ∀ r ∈ drop_duplicates_first []
                (load_data [(⟨"X", 0⟩ : RowA ℕ)] ([] : List (RowB ℕ))),
              r.name = "X" → r.bFields = none)) :=
  ⟨by simp, c7_join_completeness [(⟨"X", 0⟩ : RowA ℕ)] ([] : List (RowB ℕ))
    "X" (by simp)⟩

end Merger

namespace Metrics

/-- A summary-table row as seen by calculate_metrics: its deal name and its
'{date} MV' cell. -/
structure MRow where
  name : String
  mv : Option ℚ
deriving DecidableEq

/-- df[mv_col].sum() (src/modules/cross_validation.py line 220): pandas sum
skips NaN. -/
def total_mv (rows : List MRow) : ℚ :=
  (rows.filterMap MRow.mv).sum

/-- df.sort_values(by=mv_col, ascending=False) (line 227), following the
pandas implementation (nargsort): for the descending order the non-null
rows are reversed, argsorted ascending, and the resulting permutation is
reversed again; the null rows are appended at the end in original order
(na_position='last').  The ascending argsort uses numpy's default
quicksort; that algorithm is a stable insertion sort on arrays below 16
elements, modelled here by the stable insertionSort, and carries no
stability guarantee on larger arrays — none of the properties proved below
depends on the tie order. -/
def sort_values_desc_mv (rows : List MRow) : List MRow :=
  (((rows.filter (fun r => r.mv.isSome)).reverse.insertionSort
      (fun a b => a.mv.getD 0 ≤ b.mv.getD 0)).reverse)
    ++ rows.filter (fun r => !r.mv.isSome)

/-- pandas Series.cumsum over a column with NaNs (line 230): a NaN cell
stays NaN, a numeric cell carries the running total of the numeric cells
so far. -/
def cumsum_skipna (acc : ℚ) : List (Option ℚ) → List (Option ℚ)
  | [] => []
  | none :: t => none :: cumsum_skipna acc t
  | some v :: t => some (acc + v) :: cumsum_skipna (acc + v) t

/-- calculate_metrics (src/modules/cross_validation.py lines 208-235),
restricted to what it derives: the rows in their final sorted order, each
paired with its 'Cumulative MV %' value df[mv].cumsum() / total * 100
(null for null market values); the display formatting into a two-decimal
percentage string (lines 224, 231-233) is dropped, as is the analogous
per-row 'MV %' column, which none of the stated properties consume. -/
def calculate_metrics (rows : List MRow) : List (MRow × Option ℚ) :=
  let total := total_mv rows
  let sorted := sort_values_desc_mv rows
  sorted.zip ((cumsum_skipna 0 (sorted.map MRow.mv)).map
    (Option.map (fun x => x / total * 100)))

/-- Running partial sums of a list of rationals from a start value. -/
def partial_sums (acc : ℚ) : List ℚ → List ℚ
  | [] => []
  | v :: t => (acc + v) :: partial_sums (acc + v) t

theorem cumsum_skipna_filterMap (l : List (Option ℚ)) :
    ∀ acc, (cumsum_skipna acc l).filterMap id =
      partial_sums acc (l.filterMap id) := by
  induction l with
  | nil => intro acc; rfl
  | cons o t ih =>
    intro acc
    rcases o with _ | v
    · simp [cumsum_skipna, ih]
    · simp [cumsum_skipna, ih, partial_sums]

theorem partial_sums_chain_and_bound (l : List ℚ) :
    ∀ acc, (∀ v ∈ l, 0 ≤ v) →
      List.Chain' (fun a b : ℚ => a ≤ b) (partial_sums acc l)
      ∧ ∀ x ∈ partial_sums acc l, acc ≤ x := by
  induction l with
  | nil => exact fun acc _ => ⟨List.chain'_nil, by simp [partial_sums]⟩
  | cons v t ih =>
    intro acc hnn
    have hv : 0 ≤ v := hnn v (List.mem_cons_self v t)
    have ht : ∀ w ∈ t, 0 ≤ w := fun w hw => hnn w (List.mem_cons_of_mem v hw)
    rcases ih (acc + v) ht with ⟨hch, hbd⟩
    constructor
    · rw [partial_sums, List.chain'_cons']
      exact ⟨fun y hy => hbd y (List.mem_of_mem_head? hy), hch⟩
    · intro x hx
      rw [partial_sums, List.mem_cons] at hx
      rcases hx with hx | hx
      · rw [hx]
        linarith
      · linarith [hbd x hx]

theorem partial_sums_getLast (l : List ℚ) :
    ∀ acc, (partial_sums acc l).getLast? =
      if l = [] then none else some (acc + l.sum) := by
  induction l with
  | nil => intro acc; rfl
  | cons v t ih =>
    intro acc
    rcases t with _ | ⟨w, t'⟩
    · simp [partial_sums, add_assoc]
    · rw [partial_sums, partial_sums, List.getLast?_cons_cons]
      have hfold : ((acc + v + w) :: partial_sums (acc + v + w) t') =
          partial_sums (acc + v) (w :: t') := rfl
      rw [hfold, ih (acc + v)]
      simp [add_assoc]

theorem zip_filterMap_snd (l1 : List MRow) (l2 : List (Option ℚ)) :
    l1.length = l2.length →
      (l1.zip l2).filterMap (fun p => p.2) = l2.filterMap id := by
  induction l1 generalizing l2 with
  | nil =>
    intro h
    rw [List.length_nil] at h
    rw [List.eq_nil_of_length_eq_zero h.symm]
    rfl
  | cons a t ih =>
    intro h
    rcases l2 with _ | ⟨o, t2⟩
    · exact absurd h (by simp)
    · rcases o with _ | v <;>
        simp [List.zip_cons_cons, List.filterMap_cons,
          ih t2 (by simpa using h)]

theorem filterMap_id_map_optionMap (f : ℚ → ℚ) (l : List (Option ℚ)) :
    (l.map (Option.map f)).filterMap id = (l.filterMap id).map f := by
  induction l with
  | nil => rfl
  | cons o t ih => rcases o with _ | v <;> simp [ih]

theorem cumsum_skipna_length (l : List (Option ℚ)) :
    ∀ acc, (cumsum_skipna acc l).length = l.length := by
  induction l with
  | nil => intro acc; rfl
  | cons o t ih =>
    intro acc
    rcases o with _ | v <;> simp [cumsum_skipna, ih]

/-- The sorted rows are a permutation of the input rows. -/
theorem sort_values_desc_mv_perm (rows : List MRow) :
    (sort_values_desc_mv rows).Perm rows := by
  rw [sort_values_desc_mv]
  refine List.Perm.trans (List.Perm.append_right _ ?_)
    (List.filter_append_perm _ rows)
  exact ((List.reverse_perm _).trans
    (List.perm_insertionSort _ _)).trans (List.reverse_perm _)

/-- C8 counterexample: with a negative market value present (rows "A" with
100 and "B" with -50) the cumulative percentages are 200 then 100, which
is strictly decreasing, so the claimed monotonicity fails as stated. -/
theorem c8_counterexample :
    ((calculate_metrics [⟨"A", some 100⟩, ⟨"B", some (-50)⟩]).filterMap
        (fun p => p.2)) = [200, 100]
    ∧ ¬ List.Chain' (fun a b : ℚ => a ≤ b)
        ((calculate_metrics [⟨"A", some 100⟩, ⟨"B", some (-50)⟩]).filterMap
          (fun p => p.2)) := by
  have h : ((calculate_metrics [⟨"A", some 100⟩, ⟨"B", some (-50)⟩]).filterMap
      (fun p => p.2)) = [200, 100] := by
    have hs : sort_values_desc_mv [⟨"A", some 100⟩, ⟨"B", some (-50)⟩] =
        [⟨"A", some 100⟩, ⟨"B", some (-50)⟩] := by
      rw [sort_values_desc_mv]
      norm_num [List.filter, List.insertionSort, List.orderedInsert,
        Option.getD]
    rw [calculate_metrics]
    rw [hs]
    have ht : total_mv [⟨"A", some 100⟩, ⟨"B", some (-50)⟩] = 50 := by
      norm_num [total_mv, List.filterMap]
    rw [ht]
    norm_num [cumsum_skipna, List.map_cons, List.zip_cons_cons,
      List.filterMap_cons]
  refine ⟨h, ?_⟩
  rw [h]
  intro hch
  have := List.chain'_cons.mp hch
  linarith [this.1]

/-- C8 (amended): when every non-null market value is nonnegative and the
NaN-skipping total is positive, the 'Cumulative MV %' values over the rows
with non-null market value are monotonically non-decreasing and the last
one equals exactly 100 (hence within any rounding tolerance of 100.00%). -/
theorem c8_cumulative (rows : List MRow)
    (hnn : ∀ v ∈ rows.filterMap MRow.mv, 0 ≤ v)
    (htot : 0 < total_mv rows) :
    List.Chain' (fun a b : ℚ => a ≤ b)
        ((calculate_metrics rows).filterMap (fun p => p.2))
    ∧ ((calculate_metrics rows).filterMap (fun p => p.2)).getLast? =
        some 100 := by
  have hperm : ((sort_values_desc_mv rows).filterMap MRow.mv).Perm
      (rows.filterMap MRow.mv) :=
    (sort_values_desc_mv_perm rows).filterMap MRow.mv
  have hsum : ((sort_values_desc_mv rows).filterMap MRow.mv).sum =
      total_mv rows := hperm.sum_eq
  have hnn' : ∀ v ∈ (sort_values_desc_mv rows).filterMap MRow.mv, 0 ≤ v :=
    fun v hv => hnn v (hperm.mem_iff.mp hv)
  have hlen : (sort_values_desc_mv rows).length =
      ((cumsum_skipna 0 ((sort_values_desc_mv rows).map MRow.mv)).map
        (Option.map (fun x => x / total_mv rows * 100))).length := by
    rw [List.length_map, cumsum_skipna_length, List.length_map]
  have hred : (calculate_metrics rows).filterMap (fun p => p.2) =
      (partial_sums 0 ((sort_values_desc_mv rows).filterMap MRow.mv)).map
        (fun x => x / total_mv rows * 100) := by
    rw [calculate_metrics]
    rw [zip_filterMap_snd _ _ hlen, filterMap_id_map_optionMap,
      cumsum_skipna_filterMap, List.filterMap_map]
    rfl
  rcases partial_sums_chain_and_bound
      ((sort_values_desc_mv rows).filterMap MRow.mv) 0 hnn' with ⟨hch, _⟩
  constructor
  · rw [hred, List.chain'_map]
    refine hch.imp ?_
    intro a b hab
    have h100 : (0 : ℚ) < 100 := by norm_num
    exact mul_le_mul_of_nonneg_right
      ((div_le_div_iff_of_pos_right htot).mpr hab) (le_of_lt h100)
  · have hne : (sort_values_desc_mv rows).filterMap MRow.mv ≠ [] := by
      intro hnil
      rw [hnil] at hsum
      rw [List.sum_nil] at hsum
      exact absurd hsum.symm (ne_of_gt htot)
    rw [hred, List.getLast?_map, partial_sums_getLast, if_neg hne, hsum]
    simp only [zero_add]
    show some (total_mv rows / total_mv rows * 100) = some 100
    rw [div_self (ne_of_gt htot), one_mul]

/-- C8 witness: a single row with market value 100 satisfies both
hypotheses, its only cumulative percentage is 100. -/
theorem c8_cumulative_witness :
    (∀ v ∈ ([(⟨"A", some 100⟩ : MRow)]).filterMap MRow.mv, 0 ≤ v)
    ∧ 0 < total_mv [(⟨"A", some 100⟩ : MRow)]
    ∧ (List.Chain' (fun a b : ℚ => a ≤ b)
        ((calculate_metrics [(⟨"A", some 100⟩ : MRow)]).filterMap
          (fun p => p.2))
      ∧ ((calculate_metrics [(⟨"A", some 100⟩ : MRow)]).filterMap
          (fun p => p.2)).getLast? = some 100) := by
  have h1 : ∀ v ∈ ([(⟨"A", some 100⟩ : MRow)]).filterMap MRow.mv, 0 ≤ v := by
    intro v hv
    simp only [List.filterMap_cons, List.filterMap_nil] at hv
    rcases List.mem_cons.mp hv with h | h
    · rw [h]; norm_num
    · exact absurd h (List.not_mem_nil v)
  have h2 : 0 < total_mv [(⟨"A", some 100⟩ : MRow)] := by
    rw [total_mv]
    norm_num [List.filterMap_cons]
  exact ⟨h1, h2, c8_cumulative [(⟨"A", some 100⟩ : MRow)] h1 h2⟩

end Metrics

namespace Versions

/-- Value of a digit run, most significant digit first (Python int()). -/
def natOfDigits (l : List Char) : Nat :=
  l.foldl (fun n c => 10 * n + (c.toNat - 48)) 0

/-- Python substring containment needle in hay. -/
def containsSub (needle : List Char) : List Char → Bool
  | [] => needle.isPrefixOf []
  | c :: t => needle.isPrefixOf (c :: t) || containsSub needle t

/-- Match of the regex tail '.v' followed by a greedy nonempty digit group
at the head of rest, returning the group value. -/
def matchDotV (rest : List Char) : Option Nat :=
  match rest with
  | '.' :: 'v' :: r2 =>
    let ds := r2.takeWhile Char.isDigit
    if ds = [] then none else some (natOfDigits ds)
  | _ => none

/-- Attempt of the pattern rf'{date}\x7b.\x7dv(\d+)' — literal date, '.v',
digits — anchored at the head of s. -/
def matchVersionAt (date s : List Char) : Option Nat :=
  if date.isPrefixOf s then matchDotV (s.drop date.length) else none

/-- re.search of rf'{date}\.v(\d+)' over a filename: leftmost anchor
position wins, the digit group is greedy
(src/modules/cross_validation.py lines 691-698). -/
def searchVersion (date : List Char) : List Char → Option Nat
  | [] => matchVersionAt date []
  | c :: t =>
    match matchVersionAt date (c :: t) with
    | some v => some v
    | none => searchVersion date t

/-- Attempt of the parse_filename pattern r'(\d\x7b8\x7d)\.v(\d+)' anchored
at the head of s: exactly eight digits, '.v', then a greedy nonempty digit
group. -/
def matchFilenameAt (s : List Char) : Option (List Char × Nat) :=
  let d8 := s.take 8
  if d8.length = 8 ∧ d8.all Char.isDigit then
    match matchDotV (s.drop 8) with
    | some v => some (d8, v)
    | none => none
  else none

/-- Scanner of parse_filename's re.search: leftmost full match wins. -/
def searchFilename : List Char → Option (List Char × Nat)
  | [] => matchFilenameAt []
  | c :: t =>
    match matchFilenameAt (c :: t) with
    | some p => some p
    | none => searchFilename t

/-- parse_filename (src/modules/historical_validation_comments.py lines
38-57): extract the 8-digit date and the version number, or None. -/
def parse_filename (f : String) : Option (String × Nat) :=
  match searchFilename f.toList with
  | some (d, v) => some (String.mk d, v)
  | none => none

/-- The os.listdir post-filter used by both modules: keep f.endswith
('.xlsx') and not f.startswith('~$') (Excel lock files). -/
def keepFile (f : String) : Bool :=
  (".xlsx".toList.isSuffixOf f.toList) && !("~$".toList.isPrefixOf f.toList)

/-- Gregorian leap year. -/
def isLeapYear (y : Nat) : Bool :=
  (y % 4 == 0 && y % 100 != 0) || y % 400 == 0

/-- Number of days of month m of year y. -/
def daysInMonth (y m : Nat) : Nat :=
  if m = 2 then (if isLeapYear y then 29 else 28)
  else if m = 4 ∨ m = 6 ∨ m = 9 ∨ m = 11 then 30
  else 31

/-- Left-pad with zeros to the given width (strftime zero padding). -/
def padNum (width n : Nat) : String :=
  let s := toString n
  String.mk (List.replicate (width - s.length) '0') ++ s

/-- The v1 branch's date step (lines 135-138): strptime('%Y%m%d'), minus
relativedelta(months=1) — decrement the month, borrow a year at January,
clamp the day to the target month's length — then strftime('%Y%m%d'). -/
def prev_month_str (date : String) : String :=
  let y := natOfDigits (date.toList.take 4)
  let m := natOfDigits ((date.toList.drop 4).take 2)
  let d := natOfDigits ((date.toList.drop 6).take 2)
  let y2 := if m = 1 then y - 1 else y
  let m2 := if m = 1 then 12 else m - 1
  let d2 := min d (daysInMonth y2 m2)
  padNum 4 y2 ++ padNum 2 m2 ++ padNum 2 d2

/-- matching_files.sort(key=version, reverse=True) followed by taking the
first element: Python's sort is stable, so among equal versions the
earliest listed file wins; modelled as a left fold keeping the first
strictly-greatest entry. -/
def pickLatest (l : List (String × Nat)) : Option (String × Nat) :=
  l.foldl (fun acc p =>
    match acc with
    | none => some p
    | some q => if p.2 > q.2 then some p else some q) none

/-- find_previous_version (src/modules/historical_validation_comments.py
lines 96-156).  The folder is passed as its listing (none when os.listdir
raises, which the code turns into None); the os.path.join of the folder
prefix is dropped, so the returned path is represented by the chosen
filename.  For current_version > 1 the code scans for the first filename
CONTAINING the substring 'date.v(n-1)' (line 126); for current_version 1
it takes the highest-version file whose parsed date equals the previous
month. -/
def find_previous_version (date : String) (current_version : Nat)
    (listing : Option (List String)) : Option String :=
  match listing with
  | none => none
  | some files =>
    let all_files := files.filter keepFile
    if current_version > 1 then
      let target := date ++ ".v" ++ toString (current_version - 1)
      all_files.find? (fun f => containsSub target.toList f.toList)
    else
      let prev := prev_month_str date
      let prev_month_files := all_files.filterMap (fun f =>
        match parse_filename f with
        | some (d, v) => if d = prev then some (f, v) else none
        | none => none)
      match pickLatest prev_month_files with
      | some (f, _) => some f
      | none => none

/-- find_next_version (src/modules/cross_validation.py lines 674-701):
a failed listing is swallowed (warning) and yields 1; otherwise the result
is one plus the maximum version matched by re.search of
rf'{date}\.v(\d+)' over the kept filenames, the maximum being 0 when no
filename matches. -/
def find_next_version (date : String) (listing : Option (List String)) :
    Nat :=
  match listing with
  | none => 1
  | some files =>
    let all_files := files.filter keepFile
    let max_version := all_files.foldl
      (fun mv f =>
        match searchVersion date.toList f.toList with
        | some v => max mv v
        | none => mv) 0
    max_version + 1

/-- C3 evaluation at the failing input: asked for the predecessor of
version 2 of date 20251130 in a folder holding only version 10 of that
date, find_previous_version returns the v10 file — the substring
'20251130.v1' occurs in '...20251130.v10.xlsx' — although version 1 is
absent (the only file parses to version 10) and the claim requires a
failure report. -/
theorem c3_substring_match_bug :
    find_previous_version "20251130" 2
        (some ["AAT vs ECF 20251130.v10.xlsx"]) =
      some "AAT vs ECF 20251130.v10.xlsx"
    ∧ parse_filename "AAT vs ECF 20251130.v10.xlsx" =
        some ("20251130", 10) := by
  constructor <;> rfl

/-- The version fold never drops below its start value. -/
theorem foldl_version_le (date : String) (l : List String) :
    ∀ init : Nat,
      init ≤ l.foldl (fun mv f =>
        match searchVersion date.toList f.toList with
        | some v => max mv v
        | none => mv) init := by
  induction l with
  | nil => exact fun init => Nat.le_refl init
  | cons g t ih =>
    intro init
    rw [List.foldl_cons]
    refine Nat.le_trans ?_ (ih _)
    cases searchVersion date.toList g.toList with
    | none => exact Nat.le_refl init
    | some v => exact Nat.le_max_left init v

/-- Every version matched along the fold bounds the fold result from
below. -/
theorem foldl_version_bound (date : String) (l : List String) :
    ∀ (init : Nat) (f : String) (v : Nat), f ∈ l →
      searchVersion date.toList f.toList = some v →
      v ≤ l.foldl (fun mv f =>
        match searchVersion date.toList f.toList with
        | some v => max mv v
        | none => mv) init := by
  induction l with
  | nil => exact fun init f v hf _ => absurd hf (List.not_mem_nil f)
  | cons g t ih =>
    intro init f v hf hs
    rw [List.foldl_cons]
    rcases List.mem_cons.mp hf with h | h
    · subst h
      rw [hs]
      exact Nat.le_trans (Nat.le_max_right init v) (foldl_version_le date t _)
    · exact ih _ f v h hs

/-- The fold result is its start value or a version attained by some list
element. -/
theorem foldl_version_attained (date : String) (l : List String) :
    ∀ init : Nat,
      l.foldl (fun mv f =>
          match searchVersion date.toList f.toList with
          | some v => max mv v
          | none => mv) init = init
      ∨ ∃ f ∈ l, searchVersion date.toList f.toList =
          some (l.foldl (fun mv f =>
            match searchVersion date.toList f.toList with
            | some v => max mv v
            | none => mv) init) := by
  induction l with
  | nil => exact fun init => Or.inl rfl
  | cons g t ih =>
    intro init
    rw [List.foldl_cons]
    cases hsg : searchVersion date.toList g.toList with
    | none =>
      simp only [hsg]
      rcases ih init with h0 | ⟨f, hf, hs⟩
      · exact Or.inl h0
      · exact Or.inr ⟨f, List.mem_cons_of_mem g hf, hs⟩
    | some v =>
      simp only [hsg]
      rcases ih (max init v) with h0 | ⟨f, hf, hs⟩
      · rw [h0]
        rcases Nat.le_total init v with hle | hle
        · refine Or.inr ⟨g, List.mem_cons_self g t, ?_⟩
          rw [hsg, max_eq_right hle]
        · exact Or.inl (max_eq_left hle)
      · exact Or.inr ⟨f, List.mem_cons_of_mem g hf, hs⟩

/-- C10: find_next_version never raises: an unlistable folder yields 1, a
listing in which no kept .xlsx filename matches '<date>.v<N>' yields 1,
and otherwise the result exceeds every matched version and its predecessor
is a matched version — i.e. it is the maximum matched N plus 1. -/
theorem c10_find_next_version (date : String) (files : List String) :
    find_next_version date none = 1
    ∧ ((∀ f ∈ files.filter keepFile,
          searchVersion date.toList f.toList = none) →
        find_next_version date (some files) = 1)
    ∧ (∀ f ∈ files.filter keepFile, ∀ v,
        searchVersion date.toList f.toList = some v →
          v < find_next_version date (some files))
    ∧ (find_next_version date (some files) = 1
        ∨ ∃ f ∈ files.filter keepFile,
            searchVersion date.toList f.toList =
              some (find_next_version date (some files) - 1)) := by
  have hM : find_next_version date (some files) =
      (files.filter keepFile).foldl (fun mv f =>
        match searchVersion date.toList f.toList with
        | some v => max mv v
        | none => mv) 0 + 1 := rfl
  refine ⟨rfl, ?_, ?_, ?_⟩
  · intro h
    rw [hM]
    rcases foldl_version_attained date (files.filter keepFile) 0 with
      h0 | ⟨f, hf, hs⟩
    · rw [h0]
    · rw [h f hf] at hs
      exact absurd hs (by simp)
  · intro f hf v hs
    rw [hM]
    exact Nat.lt_succ_of_le (foldl_version_bound date _ 0 f v hf hs)
  · rcases foldl_version_attained date (files.filter keepFile) 0 with
      h0 | ⟨f, hf, hs⟩
    · exact Or.inl (by rw [hM, h0])
    · refine Or.inr ⟨f, hf, ?_⟩
      rw [hM, Nat.add_sub_cancel]
      exact hs

/-- C10 witness: an unlistable folder, and a listing with one matching
file at version 3, one non-xlsx file and one Excel lock file. -/
theorem c10_find_next_version_witness :
    find_next_version "20251130" none = 1
    ∧ find_next_version "20251130"
        (some ["AAT vs ECF 20251130.v3.xlsx", "notes.txt",
          "~$AAT vs ECF 20251130.v9.xlsx"]) = 4 :=
  ⟨(c10_find_next_version "20251130" []).1, by rfl⟩

end Versions

